import Mathlib

/-!
Shallow embedding of `src/data/profit_10_days_dataset.py`.

Dataframes are modelled as lists of rows; a row is an association list from
column name to cell value, mirroring the pandas frames used by the source.
The fitted sub-models of `ProfitsPredictor` (an sklearn pipeline ending in an
XGBoost estimator) are abstracted as per-row scoring functions: a fitted
pipeline's `predict` / `predict_proba` apply a fixed function to every row of
the input frame, which is exactly what the abstraction states.
-/

namespace Starbucks

/-- A pandas cell: a string, a rational number, or a missing value (NaN). -/
inductive Value where
  | str (s : String)
  | num (q : ℚ)
  | na
deriving DecidableEq

/-- One dataframe row: an association list of column name to value. -/
abbrev Row := List (String × Value)

/-- Value of column `c` in a row (first occurrence wins, as in pandas,
whose column index is assumed duplicate-free). -/
def lookupVal (c : String) : Row → Option Value
  | [] => none
  | p :: t => if p.1 = c then some p.2 else lookupVal c t

/-- Lookup in a rename mapping (a python `dict` from old to new name). -/
def lookupStr (c : String) : List (String × String) → Option String
  | [] => none
  | p :: t => if p.1 = c then some p.2 else lookupStr c t

/-- `VIEWCOL_LABEL = 'viewcol'` from the source module. -/
def VIEWCOL_LABEL : String := "viewcol"

/-- `Z_COLS`: the offer-numeric columns of the profit block. -/
def Z_COLS : List String :=
  ["difficulty", "duration", "reward_t", "channel_web", "channel_mobile",
   "channel_email", "channel_social"]

/-- `PROFIT_COLS = Z_COLS + ['offer_id', 'offer_type']`. -/
def PROFIT_COLS : List String := Z_COLS ++ ["offer_id", "offer_type"]

/-- `Z_VIEW_COLS`: `Z_COLS` names suffixed with `_viewcol`. -/
def Z_VIEW_COLS : List String := Z_COLS.map (fun c => c ++ "_" ++ VIEWCOL_LABEL)

/-- `VIEW_COLS`: the view-block column names. -/
def VIEW_COLS : List String :=
  Z_VIEW_COLS ++ ["offer_id_" ++ VIEWCOL_LABEL, "offer_type_" ++ VIEWCOL_LABEL]

/-- Whether a row has a column named `c`. -/
def hasKey (c : String) (r : Row) : Bool := r.any (fun p => p.1 == c)

/-- Pandas single-column assignment `df[c] = v` restricted to one row:
overwrite the column when present, otherwise append it. -/
def setCol (r : Row) (c : String) (v : Value) : Row :=
  if hasKey c r then r.map (fun p => (p.1, if p.1 = c then v else p.2))
  else r ++ [(c, v)]

/-- Assign a batch of columns in order (pandas `df[cols] = values`). -/
def setCols (r : Row) (ps : List (String × Value)) : Row :=
  ps.foldl (fun acc p => setCol acc p.1 p.2) r

/-- Pandas `df.drop(cs, axis=1)` restricted to one row. -/
def dropCols (r : Row) (cs : List String) : Row :=
  r.filter (fun p => !decide (p.1 ∈ cs))

/-- Pandas `df.rename(columns=m)` restricted to one row: names found in the
mapping are replaced, all others are kept. -/
def renameCols (r : Row) (m : List (String × String)) : Row :=
  r.map (fun p => ((lookupStr p.1 m).getD p.1, p.2))

/-- The batch assignment `data[view_cols] = data[profit_cols].copy()` of
`fill_null_offer`, for one row: each view column receives the value of its
positionally corresponding profit column (pandas aligns this assignment by
position since the view columns are fresh). -/
def viewAssign (r : Row) : List (String × Value) :=
  (VIEW_COLS.zip PROFIT_COLS).map (fun vp => (vp.1, (lookupVal vp.2 r).getD Value.na))

/-- Cell update applied by `fill_null_offer` to the rows with `viewed == 0`:
`offer_id` and `offer_type` become the sentinel `'no_offer'`, the
offer-numeric (`z_cols`) columns become `0`, all other cells are kept. -/
def nullFillCell (c : String) (v : Value) : Value :=
  if c = "offer_id" then Value.str "no_offer"
  else if c = "offer_type" then Value.str "no_offer"
  else if c ∈ Z_COLS then Value.num 0
  else v

/-- `fill_null_offer` acting on one row: first the view columns are filled
with copies of the profit columns, then, when `viewed == 0`, the profit-block
cells are overwritten via `nullFillCell`. -/
def fillNullOfferRow (r : Row) : Row :=
  let r1 := setCols r (viewAssign r)
  if lookupVal "viewed" r1 = some (Value.num 0) then
    r1.map (fun p => (p.1, nullFillCell p.1 p.2))
  else r1

/-- `fill_null_offer(data)`: returns the transformed dataframe together with
the `view_cols` and `profit_cols` name lists, as the source does. -/
def fill_null_offer (df : List Row) : List Row × List String × List String :=
  (df.map fillNullOfferRow, VIEW_COLS, PROFIT_COLS)

/-- `split_view_profit` acting on one row: the view side drops the profit
block and renames view columns to profit names; the profit side drops the
view block. -/
def splitViewProfitRow (r : Row) (vcols pcols : List String) : Row × Row :=
  (renameCols (dropCols r pcols) (vcols.zip pcols), dropCols r vcols)

/-- `split_view_profit(X, view_cols, profit_cols)` on a dataframe. -/
def split_view_profit (X : List Row) (vcols pcols : List String) :
    List Row × List Row :=
  (X.map (fun r => (splitViewProfitRow r vcols pcols).1),
   X.map (fun r => (splitViewProfitRow r vcols pcols).2))

/-- A fitted `ProfitsPredictor`: its two column-name lists and the two fitted
sub-pipelines, each abstracted as a per-row scoring function.
`viewsProbaRow` is the class-1 column of `views_model.predict_proba`,
`profitsPredRow` is `profits_model.predict`. -/
structure ProfitsPredictor where
  view_cols : List String
  profit_cols : List String
  viewsProbaRow : Row → ℚ
  profitsPredRow : Row → ℚ

/-- `ProfitsPredictor.predict`: element-wise product of the view probability
on the view split and the profit prediction on the profit split. -/
def ProfitsPredictor.predict (M : ProfitsPredictor) (X : List Row) : List ℚ :=
  List.zipWith (fun a b => a * b)
    ((split_view_profit X M.view_cols M.profit_cols).1.map M.viewsProbaRow)
    ((split_view_profit X M.view_cols M.profit_cols).2.map M.profitsPredRow)

/-- `ProfitsPredictor.predict_profit_alone`: the profit regressor applied to
the profit split, with no view-probability factor. -/
def ProfitsPredictor.predict_profit_alone (M : ProfitsPredictor) (X : List Row) :
    List ℚ :=
  (split_view_profit X M.view_cols M.profit_cols).2.map M.profitsPredRow

/-- One portfolio entry. The source handles an offer as a pandas Series
indexed by the portfolio columns; this structure carries the same fields.
The `reward` field corresponds to the portfolio's `reward` column, which
`predict_profit_with_offer` renames to `reward_t`. -/
structure Offer where
  id : String
  offer_type : String
  difficulty : ℚ
  duration : ℚ
  reward : ℚ
  channel_web : ℚ
  channel_mobile : ℚ
  channel_email : ℚ
  channel_social : ℚ
deriving DecidableEq

/-- `std_offer` of `predict_profit_with_offer` (default `drop_offer_id=False`
branch): the offer renamed (`reward` to `reward_t`, `id` to `offer_id`) and
sorted by index, paired with the profit-block column names in sorted order. -/
def stdOfferPairs (o : Offer) : List (String × Value) :=
  [("channel_email", Value.num o.channel_email),
   ("channel_mobile", Value.num o.channel_mobile),
   ("channel_social", Value.num o.channel_social),
   ("channel_web", Value.num o.channel_web),
   ("difficulty", Value.num o.difficulty),
   ("duration", Value.num o.duration),
   ("offer_id", Value.str o.id),
   ("offer_type", Value.str o.offer_type),
   ("reward_t", Value.num o.reward)]

/-- `view_offer`: `std_offer` with every index name suffixed `_viewcol`,
paired with the view-block column names in sorted order. -/
def viewOfferPairs (o : Offer) : List (String × Value) :=
  [("channel_email_viewcol", Value.num o.channel_email),
   ("channel_mobile_viewcol", Value.num o.channel_mobile),
   ("channel_social_viewcol", Value.num o.channel_social),
   ("channel_web_viewcol", Value.num o.channel_web),
   ("difficulty_viewcol", Value.num o.difficulty),
   ("duration_viewcol", Value.num o.duration),
   ("offer_id_viewcol", Value.str o.id),
   ("offer_type_viewcol", Value.str o.offer_type),
   ("reward_t_viewcol", Value.num o.reward)]

/-- The two `samples.loc[:, sorted(cols)] = np.repeat(...)` assignments of
`predict_profit_with_offer`, for one customer row: the offer's attributes are
written into the view-block columns and then into the profit-block columns. -/
def substituteOfferRow (o : Offer) (r : Row) : Row :=
  setCols (setCols r (viewOfferPairs o)) (stdOfferPairs o)

/-- `predict_profit_with_offer(model, data, offer)` (default
`drop_offer_id=False`): broadcast the offer over all rows, then score with
`predict_profit_alone` when `offer.offer_type == 'no_offer'` and with
`predict` otherwise. -/
def predict_profit_with_offer (M : ProfitsPredictor) (data : List Row)
    (offer : Offer) : List ℚ :=
  let samples := data.map (substituteOfferRow offer)
  if offer.offer_type = "no_offer" then M.predict_profit_alone samples
  else M.predict samples

/-- The `null_offer` Series appended by `choose_offer`:
`pd.Series([0, 0, 'no_offer', 'no_offer', 0, 0, 0, 0, 0], index=columns)`,
whose positions place `'no_offer'` at the `id` and `offer_type` columns and
`0` at every numeric column of the portfolio schema. -/
def null_offer : Offer := ⟨"no_offer", "no_offer", 0, 0, 0, 0, 0, 0, 0⟩

/-- The candidate list scored by `choose_offer`: the portfolio, with the
null offer appended at the end when `add_null_offer` is set. -/
def completePortfolio (portfolio : List Offer) (add_null_offer : Bool) :
    List Offer :=
  if add_null_offer then portfolio ++ [null_offer] else portfolio

/-- Fold step of pandas `idxmax`: keep the current best unless a later
entry is strictly greater (first occurrence wins on ties). -/
def idxmaxFold (b : String × ℚ) (t : List (String × ℚ)) : String × ℚ :=
  t.foldl (fun best p => if p.2 > best.2 then p else best) b

/-- Pandas `Series.idxmax`: label of the first occurrence of the maximum. -/
def idxmax : List (String × ℚ) → Option String
  | [] => none
  | b :: t => some (idxmaxFold b t).1

/-- Row `i` of the score table `res`: one (candidate id, score) entry per
candidate column. -/
def scoreRow (table : List (String × List ℚ)) (i : Nat) : List (String × ℚ) :=
  table.map (fun col => (col.1, col.2.getD i 0))

/-- `choose_offer(model, X, portfolio, add_null_offer)`: builds the complete
candidate list, scores every candidate over all customer rows
(`res.columns = complete_portfolio.id`), and returns `res.idxmax(axis=1)`
together with the score table `res`. -/
def choose_offer (M : ProfitsPredictor) (X : List Row)
    (portfolio : List Offer) (add_null_offer : Bool) :
    List (Option String) × List (String × List ℚ) :=
  let cp := completePortfolio portfolio add_null_offer
  let table := cp.map (fun o => (o.id, predict_profit_with_offer M X o))
  ((List.range X.length).map (fun i => idxmax (scoreRow table i)), table)

/-- Per-row, per-candidate score used by `choose_offer`. -/
def scoreAt (M : ProfitsPredictor) (X : List Row) (o : Offer) (i : Nat) : ℚ :=
  (predict_profit_with_offer M X o).getD i 0

/-- State-passing form of `predict_profit_with_offer`: the second component
is what the caller's `data` frame holds after the call. The source copies
`data` (`samples = data.copy()`) and writes only to the copy, so the
caller's frame is returned unchanged. -/
def predict_profit_with_offer_st (M : ProfitsPredictor) (data : List Row)
    (offer : Offer) : List ℚ × List Row :=
  (predict_profit_with_offer M data offer, data)

/-- State-passing form of `choose_offer`: the trailing components are what
the caller's `X` and `portfolio` hold after the call. The source copies the
portfolio (`complete_portfolio = portfolio.copy()`) before appending, and
`predict_profit_with_offer` copies `X`, so both are returned unchanged. -/
def choose_offer_st (M : ProfitsPredictor) (X : List Row)
    (portfolio : List Offer) (add_null_offer : Bool) :
    (List (Option String) × List (String × List ℚ)) × List Row × List Offer :=
  (choose_offer M X portfolio add_null_offer, X, portfolio)

/-- State-passing form of `fill_null_offer`: the source mutates `data` in
place (`data[view_cols] = ...`, `data.loc[...] = ...`), so the caller's
frame after the call is the transformed frame. -/
def fill_null_offer_st (df : List Row) :
    (List Row × List String × List String) × List Row :=
  (fill_null_offer df, (fill_null_offer df).1)

/-- Agreement of two rows outside a column set: same column names in the
same order, and equal values at every column not in `cs`. -/
def rowAgree (cs : List String) (r1 r2 : Row) : Prop :=
  r1.map Prod.fst = r2.map Prod.fst ∧
  ∀ q ∈ r1.zip r2, q.1.1 ∉ cs → q.1.2 = q.2.2

instance (cs : List String) (r1 r2 : Row) : Decidable (rowAgree cs r1 r2) := by
  unfold rowAgree
  infer_instance

/-- A concrete fitted predictor used as a test fixture: constant view
probability 1 and constant profit prediction 5. -/
def exM : ProfitsPredictor := ⟨VIEW_COLS, PROFIT_COLS, fun _ => 1, fun _ => 5⟩

/-- A second fixture: view probability 1/2 and profit prediction 10. -/
def exM2 : ProfitsPredictor :=
  ⟨VIEW_COLS, PROFIT_COLS, fun _ => (1 : ℚ) / 2, fun _ => 10⟩

/-- A concrete real offer. -/
def exOfferA : Offer := ⟨"offerA", "bogo", 5, 7, 2, 1, 1, 0, 0⟩

/-- A concrete raw dataset row (before `fill_null_offer`) that was not
viewed. -/
def exRow : Row :=
  [("viewed", Value.num 0), ("difficulty", Value.num 5),
   ("duration", Value.num 7), ("reward_t", Value.num 2),
   ("channel_web", Value.num 1), ("channel_mobile", Value.num 1),
   ("channel_email", Value.num 0), ("channel_social", Value.num 0),
   ("offer_id", Value.str "o1"), ("offer_type", Value.str "bogo"),
   ("age", Value.num 30)]

/-- A concrete raw dataset row that was viewed. -/
def exRow2 : Row :=
  [("viewed", Value.num 1), ("difficulty", Value.num 5),
   ("duration", Value.num 7), ("reward_t", Value.num 2),
   ("channel_web", Value.num 1), ("channel_mobile", Value.num 1),
   ("channel_email", Value.num 0), ("channel_social", Value.num 0),
   ("offer_id", Value.str "o1"), ("offer_type", Value.str "bogo"),
   ("age", Value.num 30)]

/-- A one-row dataframe with a non-viewed row. -/
def exDf : List Row := [exRow]

/-- A one-row dataframe with a viewed row. -/
def exDf2 : List Row := [exRow2]

/-- A feature row containing both column blocks plus one extra column. -/
def exRowFull : Row :=
  [("difficulty_viewcol", Value.num 5), ("duration_viewcol", Value.num 7),
   ("reward_t_viewcol", Value.num 2), ("channel_web_viewcol", Value.num 1),
   ("channel_mobile_viewcol", Value.num 1),
   ("channel_email_viewcol", Value.num 0),
   ("channel_social_viewcol", Value.num 0),
   ("offer_id_viewcol", Value.str "o1"),
   ("offer_type_viewcol", Value.str "bogo"),
   ("difficulty", Value.num 5), ("duration", Value.num 7),
   ("reward_t", Value.num 2), ("channel_web", Value.num 1),
   ("channel_mobile", Value.num 1), ("channel_email", Value.num 0),
   ("channel_social", Value.num 0), ("offer_id", Value.str "o1"),
   ("offer_type", Value.str "bogo"), ("age", Value.num 30)]

/-- A feature row whose columns are exactly the two blocks. -/
def exRowBlocks : Row :=
  [("difficulty_viewcol", Value.num 5), ("duration_viewcol", Value.num 7),
   ("reward_t_viewcol", Value.num 2), ("channel_web_viewcol", Value.num 1),
   ("channel_mobile_viewcol", Value.num 1),
   ("channel_email_viewcol", Value.num 0),
   ("channel_social_viewcol", Value.num 0),
   ("offer_id_viewcol", Value.str "o1"),
   ("offer_type_viewcol", Value.str "bogo"),
   ("difficulty", Value.num 5), ("duration", Value.num 7),
   ("reward_t", Value.num 2), ("channel_web", Value.num 1),
   ("channel_mobile", Value.num 1), ("channel_email", Value.num 0),
   ("channel_social", Value.num 0), ("offer_id", Value.str "o1"),
   ("offer_type", Value.str "bogo")]

/-- A one-row customer frame with an (otherwise empty) row. -/
def exXempty : List Row := [[]]

/-- Rows agreeing everywhere except at a view-block column. -/
def exRowV1 : Row :=
  [("difficulty_viewcol", Value.num 1), ("difficulty", Value.num 3)]

/-- Companion row to `exRowV1` with a different view-block value. -/
def exRowV2 : Row :=
  [("difficulty_viewcol", Value.num 99), ("difficulty", Value.num 3)]

theorem lookupVal_append_of_none {c : String} {r s : Row}
    (h : lookupVal c r = none) : lookupVal c (r ++ s) = lookupVal c s := by
  induction r with
  | nil => rfl
  | cons p t ih =>
    rw [lookupVal] at h
    by_cases hc : p.1 = c
    · rw [if_pos hc] at h
      exact absurd h (by simp)
    · rw [if_neg hc] at h
      rw [List.cons_append, lookupVal, if_neg hc]
      exact ih h

theorem lookupVal_append_of_some {c : String} {v : Value} {r s : Row}
    (h : lookupVal c r = some v) : lookupVal c (r ++ s) = some v := by
  induction r with
  | nil => exact absurd h (by simp [lookupVal])
  | cons p t ih =>
    rw [lookupVal] at h
    by_cases hc : p.1 = c
    · rw [if_pos hc] at h
      rw [List.cons_append, lookupVal, if_pos hc]
      exact h
    · rw [if_neg hc] at h
      rw [List.cons_append, lookupVal, if_neg hc]
      exact ih h

theorem lookupVal_eq_none_of_not_mem {c : String} {r : Row}
    (h : c ∉ r.map Prod.fst) : lookupVal c r = none := by
  induction r with
  | nil => rfl
  | cons p t ih =>
    simp only [List.map_cons, List.mem_cons, not_or] at h
    rw [lookupVal, if_neg (fun hh => h.1 hh.symm)]
    exact ih h.2

theorem hasKey_eq_false_iff {c : String} {r : Row} :
    hasKey c r = false ↔ lookupVal c r = none := by
  induction r with
  | nil => simp [hasKey, lookupVal]
  | cons p t ih =>
    by_cases hc : p.1 = c
    · simp [hasKey, lookupVal, hc]
    · simp only [hasKey, lookupVal, List.any_cons, Bool.or_eq_false_iff,
        beq_eq_false_iff_ne, ne_eq, hc, not_false_iff, true_and,
        if_neg hc] at ih ⊢
      exact ih

theorem lookupVal_map_keyed (g : String → Value → Value) (c : String) (r : Row) :
    lookupVal c (r.map (fun p => (p.1, g p.1 p.2))) = (lookupVal c r).map (g c) := by
  induction r with
  | nil => rfl
  | cons p t ih =>
    by_cases hc : p.1 = c
    · subst hc; simp [lookupVal, ih]
    · simp [lookupVal, hc, ih]

theorem lookupVal_setCol_self (r : Row) (c : String) (v : Value) :
    lookupVal c (setCol r c v) = some v := by
  unfold setCol
  by_cases hk : hasKey c r
  · rw [if_pos hk, lookupVal_map_keyed (fun k w => if k = c then v else w)]
    cases hl : lookupVal c r with
    | none =>
      rw [hasKey_eq_false_iff.mpr hl] at hk
      simp at hk
    | some w => simp
  · rw [if_neg hk]
    have hl : lookupVal c r = none := by
      exact hasKey_eq_false_iff.mp (by simpa using hk)
    rw [lookupVal_append_of_none hl]
    simp [lookupVal]

theorem lookupVal_setCol_ne {c ck : String} (h : c ≠ ck) (r : Row) (v : Value) :
    lookupVal c (setCol r ck v) = lookupVal c r := by
  unfold setCol
  by_cases hk : hasKey ck r
  · rw [if_pos hk, lookupVal_map_keyed (fun k w => if k = ck then v else w)]
    cases hl : lookupVal c r with
    | none => simp
    | some w => simp [h]
  · rw [if_neg hk]
    cases hl : lookupVal c r with
    | none =>
      rw [lookupVal_append_of_none hl]
      simp [lookupVal, Ne.symm h]
    | some w => exact lookupVal_append_of_some hl

theorem lookupVal_setCols_not_mem {c : String} {ps : List (String × Value)}
    (h : c ∉ ps.map Prod.fst) (r : Row) :
    lookupVal c (setCols r ps) = lookupVal c r := by
  induction ps generalizing r with
  | nil => rfl
  | cons p t ih =>
    simp only [List.map_cons, List.mem_cons, not_or] at h
    have hstep : setCols r (p :: t) = setCols (setCol r p.1 p.2) t := rfl
    rw [hstep, ih h.2, lookupVal_setCol_ne h.1]

theorem lookupVal_setCols_mem {c : String} {v : Value}
    {ps : List (String × Value)} (hnd : (ps.map Prod.fst).Nodup)
    (hm : (c, v) ∈ ps) (r : Row) :
    lookupVal c (setCols r ps) = some v := by
  induction ps generalizing r with
  | nil => exact absurd hm (List.not_mem_nil _)
  | cons p t ih =>
    have hstep : setCols r (p :: t) = setCols (setCol r p.1 p.2) t := rfl
    rw [hstep]
    have hnd' := List.nodup_cons.mp
      (show (p.1 :: t.map Prod.fst).Nodup by simpa only [List.map_cons] using hnd)
    rcases List.mem_cons.mp hm with heq | hmem
    · have hc : p.1 = c := by rw [← heq]
      have hv : p.2 = v := by rw [← heq]
      have hnotin : c ∉ t.map Prod.fst := by
        have := hnd'.1
        rwa [hc] at this
      rw [lookupVal_setCols_not_mem hnotin, ← hc, ← hv, lookupVal_setCol_self]
    · exact ih hnd'.2 hmem _

theorem lookupVal_of_mem_nodup {c : String} {v : Value} {l : Row}
    (hnd : (l.map Prod.fst).Nodup) (hm : (c, v) ∈ l) :
    lookupVal c l = some v := by
  induction l with
  | nil => exact absurd hm (List.not_mem_nil _)
  | cons p t ih =>
    have hnd' := List.nodup_cons.mp
      (show (p.1 :: t.map Prod.fst).Nodup by simpa only [List.map_cons] using hnd)
    rcases List.mem_cons.mp hm with heq | hmem
    · have hc : p.1 = c := by rw [← heq]
      have hv : p.2 = v := by rw [← heq]
      rw [lookupVal, if_pos hc, hv]
    · have hc : p.1 ≠ c := by
        intro hh
        have : c ∈ t.map Prod.fst := by
          have := List.mem_map_of_mem Prod.fst hmem
          exact this
        rw [hh] at hnd'
        exact hnd'.1 this
      rw [lookupVal, if_neg hc]
      exact ih hnd'.2 hmem

theorem setCols_fresh_append {ps : List (String × Value)} {r : Row}
    (hf : ∀ p ∈ ps, hasKey p.1 r = false)
    (hnd : (ps.map Prod.fst).Nodup) : setCols r ps = r ++ ps := by
  induction ps generalizing r with
  | nil => simp [setCols]
  | cons p t ih =>
    have hstep : setCols r (p :: t) = setCols (setCol r p.1 p.2) t := rfl
    have hcol : setCol r p.1 p.2 = r ++ [(p.1, p.2)] := by
      rw [setCol, if_neg]
      rw [hf p (List.mem_cons_self _ _)]
      simp
    rw [hstep, hcol]
    have hnd' := List.nodup_cons.mp
      (show (p.1 :: t.map Prod.fst).Nodup by simpa only [List.map_cons] using hnd)
    have hf' : ∀ q ∈ t, hasKey q.1 (r ++ [(p.1, p.2)]) = false := by
      intro q hq
      have h2 : (p.1 == q.1) = false := by
        simp only [beq_eq_false_iff_ne, ne_eq]
        intro hh
        have hmem : q.1 ∈ t.map Prod.fst := List.mem_map_of_mem Prod.fst hq
        exact hnd'.1 (hh.symm ▸ hmem)
      have h1 : r.any (fun x => x.1 == q.1) = false :=
        hf q (List.mem_cons_of_mem _ hq)
      rw [hasKey, List.any_append, h1]
      simp [h2]
    rw [ih hf' hnd'.2]
    simp

theorem viewAssign_keys (r : Row) : (viewAssign r).map Prod.fst = VIEW_COLS := by
  rw [viewAssign, List.map_map]
  rfl

theorem zipWith_map_same {α β γ ρ : Type} (h : α → β → γ) (f : ρ → α)
    (g : ρ → β) (l : List ρ) :
    List.zipWith h (l.map f) (l.map g) = l.map (fun x => h (f x) (g x)) := by
  induction l with
  | nil => rfl
  | cons a t ih => simp [ih]

theorem idxmaxFold_mem (b : String × ℚ) (t : List (String × ℚ)) :
    idxmaxFold b t ∈ b :: t := by
  induction t generalizing b with
  | nil => simp [idxmaxFold]
  | cons p t ih =>
    have hstep : idxmaxFold b (p :: t) = idxmaxFold (if p.2 > b.2 then p else b) t := rfl
    rw [hstep]
    rcases List.mem_cons.mp (ih (if p.2 > b.2 then p else b)) with h | h
    · rw [h]
      by_cases hc : p.2 > b.2
      · simp [hc]
      · simp [hc]
    · exact List.mem_cons_of_mem _ (List.mem_cons_of_mem _ h)

theorem idxmaxFold_le (b : String × ℚ) (t : List (String × ℚ)) :
    ∀ q ∈ b :: t, q.2 ≤ (idxmaxFold b t).2 := by
  induction t generalizing b with
  | nil =>
    intro q hq
    rcases List.mem_cons.mp hq with h | h
    · rw [h]
      exact le_rfl
    · exact absurd h (List.not_mem_nil _)
  | cons p t ih =>
    intro q hq
    have hstep : (idxmaxFold b (p :: t)).2 = (idxmaxFold (if p.2 > b.2 then p else b) t).2 := rfl
    rw [hstep]
    have hbb : b.2 ≤ (if p.2 > b.2 then p else b).2 := by
      by_cases hc : p.2 > b.2
      · rw [if_pos hc]; exact le_of_lt hc
      · rw [if_neg hc]
    have hpb : p.2 ≤ (if p.2 > b.2 then p else b).2 := by
      by_cases hc : p.2 > b.2
      · rw [if_pos hc]
      · rw [if_neg hc]; exact le_of_not_lt hc
    have htop := ih (if p.2 > b.2 then p else b) _ (List.mem_cons_self _ _)
    rcases List.mem_cons.mp hq with h | h
    · rw [h]; exact le_trans hbb htop
    · rcases List.mem_cons.mp h with h2 | h2
      · rw [h2]; exact le_trans hpb htop
      · exact ih _ q (List.mem_cons_of_mem _ h2)

theorem idxmaxFold_append_le {v : ℚ} {c : String} (b : String × ℚ)
    (t : List (String × ℚ)) (h : v ≤ (idxmaxFold b t).2) :
    idxmaxFold b (t ++ [(c, v)]) = idxmaxFold b t := by
  have hexp : idxmaxFold b (t ++ [(c, v)]) =
      if v > (idxmaxFold b t).2 then (c, v) else idxmaxFold b t := by
    simp [idxmaxFold, List.foldl_append]
  rw [hexp, if_neg (not_lt.mpr h)]

/-- Claim C1: for every fitted `ProfitsPredictor` and feature table `X`,
`predict(X)` is, element-wise per row, the view-classifier's class-1
probability computed on the view split of the row (profit block dropped,
view columns renamed to profit names) multiplied by the profit-regressor's
prediction computed on the profit split of the row (view block dropped). -/
theorem predict_eq_rowwise_product (M : ProfitsPredictor) (X : List Row) :
    M.predict X = X.map (fun r =>
      M.viewsProbaRow
        (renameCols (dropCols r M.profit_cols) (M.view_cols.zip M.profit_cols)) *
      M.profitsPredRow (dropCols r M.view_cols)) := by
  simp only [ProfitsPredictor.predict, split_view_profit, List.map_map]
  rw [zipWith_map_same]
  rfl

/-- Claim C8: for every portfolio, `choose_offer` with `add_null_offer=True`
appends as last candidate the sentinel offer, whose identity and type are
`"no_offer"` and whose numeric fields (difficulty, duration, reward and all
channel flags) are all zero. -/
theorem null_offer_appended_and_zero (portfolio : List Offer) :
    (completePortfolio portfolio true).getLast? = some null_offer ∧
    null_offer.id = "no_offer" ∧ null_offer.offer_type = "no_offer" ∧
    null_offer.difficulty = 0 ∧ null_offer.duration = 0 ∧
    null_offer.reward = 0 ∧ null_offer.channel_web = 0 ∧
    null_offer.channel_mobile = 0 ∧ null_offer.channel_email = 0 ∧
    null_offer.channel_social = 0 := by
  refine ⟨?_, rfl, rfl, rfl, rfl, rfl, rfl, rfl, rfl, rfl⟩
  rw [completePortfolio, if_pos rfl]
  exact List.getLast?_concat _

/-- Claim C10: `choose_offer` and `predict_profit_with_offer` leave the
caller's frames unchanged (the substitution happens on copies), while
`fill_null_offer` mutates its dataset in place, as witnessed on a concrete
frame that it changes. -/
theorem chooser_and_scorer_do_not_mutate :
    (∀ (M : ProfitsPredictor) (X : List Row) (portfolio : List Offer) (b : Bool),
      (choose_offer_st M X portfolio b).2 = (X, portfolio)) ∧
    (∀ (M : ProfitsPredictor) (X : List Row) (o : Offer),
      (predict_profit_with_offer_st M X o).2 = X) ∧
    (fill_null_offer_st exDf).2 ≠ exDf := by
  refine ⟨fun M X p b => rfl, fun M X o => rfl, ?_⟩
  decide

theorem dropCols_eq_of_agree {cs : List String} {r1 r2 : Row}
    (h : rowAgree cs r1 r2) : dropCols r1 cs = dropCols r2 cs := by
  induction r1 generalizing r2 with
  | nil =>
    cases r2 with
    | nil => rfl
    | cons q t2 => exact absurd h.1 (by simp)
  | cons p t ih =>
    cases r2 with
    | nil => exact absurd h.1 (by simp)
    | cons q t2 =>
      obtain ⟨hkeys, hvals⟩ := h
      simp only [List.map_cons, List.cons.injEq] at hkeys
      have hk : p.1 = q.1 := hkeys.1
      have hrec : rowAgree cs t t2 := by
        refine ⟨hkeys.2, fun x hx hnot => hvals x ?_ hnot⟩
        rw [List.zip_cons_cons]
        exact List.mem_cons_of_mem _ hx
      by_cases hmem : p.1 ∈ cs
      · rw [dropCols, List.filter_cons, if_neg (by simp [hmem]),
          dropCols, List.filter_cons, if_neg (by simp [hk ▸ hmem])]
        exact ih hrec
      · have hv : p.2 = q.2 := by
          refine hvals (p, q) ?_ hmem
          rw [List.zip_cons_cons]
          exact List.mem_cons_self _ _
        have hpq : p = q := Prod.ext hk hv
        rw [dropCols, List.filter_cons, if_pos (by simp [hmem]),
          dropCols, List.filter_cons, if_pos (by simp [hk ▸ hmem])]
        rw [hpq]
        exact congrArg (q :: ·) (ih hrec)

theorem map_dropCols_eq {cs : List String} :
    ∀ (X1 X2 : List Row), X1.length = X2.length →
    (∀ q ∈ X1.zip X2, rowAgree cs q.1 q.2) →
    X1.map (fun r => dropCols r cs) = X2.map (fun r => dropCols r cs)
  | [], [], _, _ => rfl
  | [], _ :: _, h, _ => by simp at h
  | _ :: _, [], h, _ => by simp at h
  | a :: t1, b :: t2, hlen, hag => by
    simp only [List.map_cons]
    have h1 : rowAgree cs a b := by
      refine hag (a, b) ?_
      rw [List.zip_cons_cons]
      exact List.mem_cons_self _ _
    rw [dropCols_eq_of_agree h1]
    have hrest := map_dropCols_eq t1 t2 (by simpa using hlen)
      (fun q hq => hag q (by rw [List.zip_cons_cons]; exact List.mem_cons_of_mem _ hq))
    rw [hrest]

/-- Claim C4: for every fitted `ProfitsPredictor` and any two feature tables
with the same shape that agree on every column outside the view block,
`predict_profit_alone` returns identical outputs: the view-classifier is
never invoked on this path and the view-block values are dropped before the
profit regressor is applied. -/
theorem predict_profit_alone_view_independent (M : ProfitsPredictor)
    (X1 X2 : List Row) (hlen : X1.length = X2.length)
    (hag : ∀ q ∈ X1.zip X2, rowAgree M.view_cols q.1 q.2) :
    M.predict_profit_alone X1 = M.predict_profit_alone X2 := by
  simp only [ProfitsPredictor.predict_profit_alone, split_view_profit,
    splitViewProfitRow]
  rw [show (X1.map fun r =>
      (renameCols (dropCols r M.profit_cols) (M.view_cols.zip M.profit_cols),
        dropCols r M.view_cols).2) = X1.map (fun r => dropCols r M.view_cols) from rfl]
  rw [show (X2.map fun r =>
      (renameCols (dropCols r M.profit_cols) (M.view_cols.zip M.profit_cols),
        dropCols r M.view_cols).2) = X2.map (fun r => dropCols r M.view_cols) from rfl]
  rw [map_dropCols_eq X1 X2 hlen hag]

/-- Witness for claim C4 at a concrete model and two concrete one-row tables
that differ only in the view-block column `difficulty_viewcol`. -/
theorem predict_profit_alone_view_independent_witness :
    exRowV1.length = exRowV1.length ∧
    [exRowV1].length = [exRowV2].length ∧
    (∀ q ∈ [exRowV1].zip [exRowV2], rowAgree exM.view_cols q.1 q.2) ∧
    exM.predict_profit_alone [exRowV1] = exM.predict_profit_alone [exRowV2] :=
  ⟨rfl, by decide, by decide,
    predict_profit_alone_view_independent exM [exRowV1] [exRowV2]
      (by decide) (by decide)⟩

theorem lookupVal_fillStep1_not_view {c : String} (hc : c ∉ VIEW_COLS)
    (r : Row) : lookupVal c (setCols r (viewAssign r)) = lookupVal c r := by
  apply lookupVal_setCols_not_mem
  rw [viewAssign_keys]
  exact hc

theorem lookupVal_fillStep1_view {vp : String × String}
    (hvp : vp ∈ VIEW_COLS.zip PROFIT_COLS) (r : Row) :
    lookupVal vp.1 (setCols r (viewAssign r)) =
      some ((lookupVal vp.2 r).getD Value.na) := by
  apply lookupVal_setCols_mem
  · rw [viewAssign_keys]
    decide
  · exact List.mem_map_of_mem _ hvp

theorem VIEW_COLS_lit : VIEW_COLS =
    ["difficulty_viewcol", "duration_viewcol", "reward_t_viewcol",
     "channel_web_viewcol", "channel_mobile_viewcol", "channel_email_viewcol",
     "channel_social_viewcol", "offer_id_viewcol", "offer_type_viewcol"] := by
  decide

theorem PROFIT_COLS_lit : PROFIT_COLS =
    ["difficulty", "duration", "reward_t", "channel_web", "channel_mobile",
     "channel_email", "channel_social", "offer_id", "offer_type"] := by
  decide

theorem nullFillCell_view {c : String} (hc : c ∈ VIEW_COLS) (v : Value) :
    nullFillCell c v = v := by
  rw [VIEW_COLS_lit] at hc
  fin_cases hc <;> rfl

theorem nullFillCell_z {c : String} (hc : c ∈ Z_COLS) (v : Value) :
    nullFillCell c v = Value.num 0 := by
  fin_cases hc <;> rfl

theorem mem_fst_of_mem_zip_cols {vp : String × String}
    (hvp : vp ∈ VIEW_COLS.zip PROFIT_COLS) : vp.1 ∈ VIEW_COLS := by
  have h := List.mem_map_of_mem Prod.fst hvp
  rwa [List.map_fst_zip _ _ (by decide)] at h

theorem mem_snd_of_mem_zip_cols {vp : String × String}
    (hvp : vp ∈ VIEW_COLS.zip PROFIT_COLS) : vp.2 ∈ PROFIT_COLS := by
  have h := List.mem_map_of_mem Prod.snd hvp
  rwa [List.map_snd_zip _ _ (by decide)] at h

/-- Claim C3: after `fill_null_offer`, every row that was not viewed
(`viewed == 0`) has sentinel `offer_id` and `offer_type`, zero in every
offer-numeric (`z_cols`) column, and each view-block column holds the row's
original pre-fill value of its corresponding profit-block column. -/
theorem fill_null_offer_not_viewed (df : List Row) (i : Nat) (r : Row)
    (hr : df.get? i = some r)
    (hv : lookupVal "viewed" r = some (Value.num 0))
    (hall : ∀ c ∈ PROFIT_COLS, (lookupVal c r).isSome = true) :
    ∃ s, (fill_null_offer df).1.get? i = some s ∧
      lookupVal "offer_id" s = some (Value.str "no_offer") ∧
      lookupVal "offer_type" s = some (Value.str "no_offer") ∧
      (∀ c ∈ Z_COLS, lookupVal c s = some (Value.num 0)) ∧
      (∀ vp ∈ VIEW_COLS.zip PROFIT_COLS, lookupVal vp.1 s = lookupVal vp.2 r) := by
  have hcond : lookupVal "viewed" (setCols r (viewAssign r)) = some (Value.num 0) := by
    rw [lookupVal_fillStep1_not_view (by decide)]
    exact hv
  have hrow : fillNullOfferRow r =
      (setCols r (viewAssign r)).map (fun p => (p.1, nullFillCell p.1 p.2)) := by
    simp only [fillNullOfferRow]
    rw [if_pos hcond]
  refine ⟨fillNullOfferRow r, ?_, ?_, ?_, ?_, ?_⟩
  · simp only [fill_null_offer]
    rw [List.get?_map, hr]
    rfl
  · rw [hrow, lookupVal_map_keyed nullFillCell,
      lookupVal_fillStep1_not_view (by decide)]
    obtain ⟨w, hw⟩ := Option.isSome_iff_exists.mp (hall "offer_id" (by decide))
    rw [hw]
    rfl
  · rw [hrow, lookupVal_map_keyed nullFillCell,
      lookupVal_fillStep1_not_view (by decide)]
    obtain ⟨w, hw⟩ := Option.isSome_iff_exists.mp (hall "offer_type" (by decide))
    rw [hw]
    rfl
  · intro c hc
    rw [hrow, lookupVal_map_keyed nullFillCell]
    have hcnv : c ∉ VIEW_COLS := by
      have h9 : ∀ x ∈ Z_COLS, x ∉ VIEW_COLS := by decide
      exact h9 c hc
    rw [lookupVal_fillStep1_not_view hcnv]
    obtain ⟨w, hw⟩ := Option.isSome_iff_exists.mp
      (hall c (List.mem_append_left _ hc))
    rw [hw]
    simp [nullFillCell_z hc]
  · intro vp hvp
    rw [hrow, lookupVal_map_keyed nullFillCell, lookupVal_fillStep1_view hvp]
    obtain ⟨w, hw⟩ := Option.isSome_iff_exists.mp
      (hall vp.2 (mem_snd_of_mem_zip_cols hvp))
    rw [hw]
    simp [nullFillCell_view (mem_fst_of_mem_zip_cols hvp)]

/-- Witness for claim C3 at a concrete one-row dataset with `viewed = 0`. -/
theorem fill_null_offer_not_viewed_witness :
    exDf.get? 0 = some exRow ∧
    lookupVal "viewed" exRow = some (Value.num 0) ∧
    (∀ c ∈ PROFIT_COLS, (lookupVal c exRow).isSome = true) ∧
    (∃ s, (fill_null_offer exDf).1.get? 0 = some s ∧
      lookupVal "offer_id" s = some (Value.str "no_offer") ∧
      lookupVal "offer_type" s = some (Value.str "no_offer") ∧
      (∀ c ∈ Z_COLS, lookupVal c s = some (Value.num 0)) ∧
      (∀ vp ∈ VIEW_COLS.zip PROFIT_COLS, lookupVal vp.1 s = lookupVal vp.2 exRow)) :=
  ⟨by decide, by decide, by decide,
    fill_null_offer_not_viewed exDf 0 exRow (by decide) (by decide) (by decide)⟩

/-- Claim C9: `fill_null_offer` does not touch the profit block (nor any
other pre-existing column) of a row with `viewed != 0`: every column outside
the view block keeps its original value, each view-block column receives a
copy of its corresponding profit-block column, and when the view columns are
fresh the transformed row is exactly the original row with the view-block
copies appended. -/
theorem fill_null_offer_viewed_unchanged (df : List Row) (i : Nat) (r : Row)
    (hr : df.get? i = some r)
    (hv : lookupVal "viewed" r ≠ some (Value.num 0))
    (hfresh : ∀ v ∈ VIEW_COLS, lookupVal v r = none)
    (hall : ∀ c ∈ PROFIT_COLS, (lookupVal c r).isSome = true) :
    ∃ s, (fill_null_offer df).1.get? i = some s ∧
      (∀ c, c ∉ VIEW_COLS → lookupVal c s = lookupVal c r) ∧
      (∀ vp ∈ VIEW_COLS.zip PROFIT_COLS, lookupVal vp.1 s = lookupVal vp.2 r) ∧
      s = r ++ viewAssign r := by
  have hrow : fillNullOfferRow r = setCols r (viewAssign r) := by
    simp only [fillNullOfferRow]
    rw [if_neg]
    rw [lookupVal_fillStep1_not_view (by decide)]
    exact hv
  refine ⟨fillNullOfferRow r, ?_, ?_, ?_, ?_⟩
  · simp only [fill_null_offer]
    rw [List.get?_map, hr]
    rfl
  · intro c hc
    rw [hrow]
    exact lookupVal_fillStep1_not_view hc r
  · intro vp hvp
    rw [hrow, lookupVal_fillStep1_view hvp]
    obtain ⟨w, hw⟩ := Option.isSome_iff_exists.mp
      (hall vp.2 (mem_snd_of_mem_zip_cols hvp))
    rw [hw]
    rfl
  · rw [hrow]
    apply setCols_fresh_append
    · intro p hp
      have hp1 : p.1 ∈ VIEW_COLS := by
        have h := List.mem_map_of_mem Prod.fst hp
        rwa [viewAssign_keys] at h
      exact hasKey_eq_false_iff.mpr (hfresh p.1 hp1)
    · rw [viewAssign_keys]
      decide

/-- Witness for claim C9 at a concrete one-row dataset with `viewed = 1`. -/
theorem fill_null_offer_viewed_unchanged_witness :
    exDf2.get? 0 = some exRow2 ∧
    lookupVal "viewed" exRow2 ≠ some (Value.num 0) ∧
    (∀ v ∈ VIEW_COLS, lookupVal v exRow2 = none) ∧
    (∀ c ∈ PROFIT_COLS, (lookupVal c exRow2).isSome = true) ∧
    (∃ s, (fill_null_offer exDf2).1.get? 0 = some s ∧
      (∀ c, c ∉ VIEW_COLS → lookupVal c s = lookupVal c exRow2) ∧
      (∀ vp ∈ VIEW_COLS.zip PROFIT_COLS, lookupVal vp.1 s = lookupVal vp.2 exRow2) ∧
      s = exRow2 ++ viewAssign exRow2) :=
  ⟨by decide, by decide, by decide, by decide,
    fill_null_offer_viewed_unchanged exDf2 0 exRow2 (by decide) (by decide)
      (by decide) (by decide)⟩

/-- Claim C5: for a fitted model, a customer table with at least one row and
a single-offer portfolio, `choose_offer` with `add_null_offer=True` returns a
score table with exactly two columns labelled by the offer's identity and
`"no_offer"`, and the chosen offer of each row is the arg-max column of that
row (the appended sentinel wins only with a strictly greater score). -/
theorem choose_offer_single_offer (M : ProfitsPredictor) (X : List Row)
    (o : Offer) (i : Nat) (hi : i < X.length) :
    ((choose_offer M X [o] true).2).map Prod.fst = [o.id, "no_offer"] ∧
    ((choose_offer M X [o] true).2).length = 2 ∧
    ((choose_offer M X [o] true).1).get? i = some (some
      (if (predict_profit_with_offer M X null_offer).getD i 0 >
          (predict_profit_with_offer M X o).getD i 0
       then "no_offer" else o.id)) := by
  refine ⟨?_, ?_, ?_⟩
  · simp [choose_offer, completePortfolio, null_offer]
  · simp [choose_offer, completePortfolio]
  · simp only [choose_offer, completePortfolio, if_pos]
    rw [List.get?_map, List.get?_range hi]
    simp only [Option.map_some']
    congr 1
    rw [show ([o] ++ [null_offer]).map
        (fun o => (o.id, predict_profit_with_offer M X o)) =
        [(o.id, predict_profit_with_offer M X o),
         ("no_offer", predict_profit_with_offer M X null_offer)] from rfl]
    rw [show scoreRow
        [(o.id, predict_profit_with_offer M X o),
         ("no_offer", predict_profit_with_offer M X null_offer)] i =
        [(o.id, (predict_profit_with_offer M X o).getD i 0),
         ("no_offer", (predict_profit_with_offer M X null_offer).getD i 0)] from rfl]
    rw [show idxmax
        [(o.id, (predict_profit_with_offer M X o).getD i 0),
         ("no_offer", (predict_profit_with_offer M X null_offer).getD i 0)] =
        some (if (predict_profit_with_offer M X null_offer).getD i 0 >
            (predict_profit_with_offer M X o).getD i 0
          then ("no_offer", (predict_profit_with_offer M X null_offer).getD i 0)
          else (o.id, (predict_profit_with_offer M X o).getD i 0)).1 from rfl]
    rw [apply_ite Prod.fst]

/-- Witness for claim C5 at a concrete model, customer row and offer. -/
theorem choose_offer_single_offer_witness :
    0 < exXempty.length ∧
    (((choose_offer exM2 exXempty [exOfferA] true).2).map Prod.fst =
      [exOfferA.id, "no_offer"] ∧
    ((choose_offer exM2 exXempty [exOfferA] true).2).length = 2 ∧
    ((choose_offer exM2 exXempty [exOfferA] true).1).get? 0 = some (some
      (if (predict_profit_with_offer exM2 exXempty null_offer).getD 0 0 >
          (predict_profit_with_offer exM2 exXempty exOfferA).getD 0 0
       then "no_offer" else exOfferA.id))) :=
  ⟨by decide, choose_offer_single_offer exM2 exXempty exOfferA 0 (by decide)⟩

theorem stdOfferPairs_keys (o : Offer) : (stdOfferPairs o).map Prod.fst =
    ["channel_email", "channel_mobile", "channel_social", "channel_web",
     "difficulty", "duration", "offer_id", "offer_type", "reward_t"] := rfl

theorem viewOfferPairs_keys (o : Offer) : (viewOfferPairs o).map Prod.fst =
    ["channel_email_viewcol", "channel_mobile_viewcol",
     "channel_social_viewcol", "channel_web_viewcol", "difficulty_viewcol",
     "duration_viewcol", "offer_id_viewcol", "offer_type_viewcol",
     "reward_t_viewcol"] := rfl

/-- Claim C6: `predict_profit_with_offer` writes the scored candidate's
attributes into both the view-block and the profit-block columns of every
customer row, and — over the candidate set built by `choose_offer` from a
portfolio of real offers (type different from `"no_offer"`) — scores with
`predict_profit_alone` exactly when the candidate is the appended sentinel,
and with `predict` otherwise. -/
theorem predict_profit_with_offer_substitutes_and_branches
    (M : ProfitsPredictor) (X : List Row) (portfolio : List Offer)
    (cand : Offer) (hc : cand ∈ completePortfolio portfolio true)
    (hreal : ∀ o ∈ portfolio, o.offer_type ≠ "no_offer") :
    (∀ r ∈ X, ∀ p ∈ viewOfferPairs cand ++ stdOfferPairs cand,
      lookupVal p.1 (substituteOfferRow cand r) = some p.2) ∧
    predict_profit_with_offer M X cand =
      (if cand = null_offer
       then M.predict_profit_alone (X.map (substituteOfferRow cand))
       else M.predict (X.map (substituteOfferRow cand))) := by
  constructor
  · intro r hrX p hp
    rcases List.mem_append.mp hp with hview | hstd
    · rw [substituteOfferRow]
      have hp1 : p.1 ∉ (stdOfferPairs cand).map Prod.fst := by
        have hmem : p.1 ∈ (viewOfferPairs cand).map Prod.fst :=
          List.mem_map_of_mem _ hview
        rw [viewOfferPairs_keys] at hmem
        rw [stdOfferPairs_keys]
        have h9 : ∀ x ∈ ["channel_email_viewcol", "channel_mobile_viewcol",
            "channel_social_viewcol", "channel_web_viewcol",
            "difficulty_viewcol", "duration_viewcol", "offer_id_viewcol",
            "offer_type_viewcol", "reward_t_viewcol"],
            x ∉ ["channel_email", "channel_mobile", "channel_social",
              "channel_web", "difficulty", "duration", "offer_id",
              "offer_type", "reward_t"] := by decide
        exact h9 p.1 hmem
      rw [lookupVal_setCols_not_mem hp1]
      apply lookupVal_setCols_mem
      · rw [viewOfferPairs_keys]
        decide
      · rw [Prod.mk.eta]
        exact hview
    · rw [substituteOfferRow]
      apply lookupVal_setCols_mem
      · rw [stdOfferPairs_keys]
        decide
      · rw [Prod.mk.eta]
        exact hstd
  · simp only [predict_profit_with_offer]
    have hc2 : cand ∈ portfolio ∨ cand = null_offer := by
      simpa [completePortfolio, List.mem_append, List.mem_singleton] using hc
    have hiff : (cand.offer_type = "no_offer") ↔ (cand = null_offer) := by
      constructor
      · intro ht
        rcases hc2 with hp | hn
        · exact absurd ht (hreal cand hp)
        · exact hn
      · intro he
        rw [he]
        rfl
    by_cases hb : cand.offer_type = "no_offer"
    · rw [if_pos hb, if_pos (hiff.mp hb)]
    · rw [if_neg hb, if_neg (fun he => hb (hiff.mpr he))]

/-- Witness for claim C6 at a concrete candidate set holding one real offer
and the appended sentinel, scoring the sentinel. -/
theorem predict_profit_with_offer_substitutes_and_branches_witness :
    null_offer ∈ completePortfolio [exOfferA] true ∧
    (∀ o ∈ [exOfferA], o.offer_type ≠ "no_offer") ∧
    ((∀ r ∈ exDf, ∀ p ∈ viewOfferPairs null_offer ++ stdOfferPairs null_offer,
      lookupVal p.1 (substituteOfferRow null_offer r) = some p.2) ∧
    predict_profit_with_offer exM exDf null_offer =
      (if null_offer = null_offer
       then exM.predict_profit_alone (exDf.map (substituteOfferRow null_offer))
       else exM.predict (exDf.map (substituteOfferRow null_offer)))) :=
  ⟨by decide, by decide,
    predict_profit_with_offer_substitutes_and_branches exM exDf [exOfferA]
      null_offer (by decide) (by decide)⟩

theorem exA_predict_eval : predict_profit_with_offer exM exXempty exOfferA = [5] := by
  simp [predict_profit_with_offer, exOfferA, ProfitsPredictor.predict,
    split_view_profit, exM, exXempty]

theorem exNull_predict_eval :
    predict_profit_with_offer exM exXempty null_offer = [5] := by
  decide

theorem exTie_eval :
    scoreAt exM exXempty exOfferA 0 = scoreAt exM exXempty null_offer 0 := by
  rw [scoreAt, scoreAt, exA_predict_eval, exNull_predict_eval]

/-- Counterexample to claim C2: with a single real offer whose score exactly
ties the sentinel's score on a row (both are 5), `choose_offer` returns the
real offer `"offerA"` for that row, not `"no_offer"`: `idxmax` keeps the
first occurrence of the maximum and the sentinel column is appended last. -/
theorem choose_offer_tie_counterexample :
    scoreAt exM exXempty exOfferA 0 = scoreAt exM exXempty null_offer 0 ∧
    (choose_offer exM exXempty [exOfferA] true).1 = [some "offerA"] ∧
    some "offerA" ≠ (some "no_offer" : Option String) := by
  refine ⟨exTie_eval, ?_, by decide⟩
  simp only [choose_offer, completePortfolio, if_pos, List.map, exA_predict_eval]
  decide

/-- Claim C2 (amended): ties are resolved first-occurrence-wins over the
candidate column order, with the sentinel appended as the last candidate, so
for a row where a real offer's score exactly equals the sentinel's score and
no candidate scores higher, the chosen offer is a real offer from the
portfolio — never `"no_offer"`. -/
theorem choose_offer_tie_first_occurrence (M : ProfitsPredictor) (X : List Row)
    (portfolio : List Offer) (oj : Offer) (i : Nat)
    (hmem : oj ∈ portfolio)
    (hids : ∀ o ∈ portfolio, o.id ≠ "no_offer")
    (hi : i < X.length)
    (htie : scoreAt M X oj i = scoreAt M X null_offer i)
    (hmax : ∀ o ∈ portfolio, scoreAt M X o i ≤ scoreAt M X oj i) :
    ∃ c, (choose_offer M X portfolio true).1.get? i = some (some c) ∧
      c ∈ portfolio.map Offer.id ∧ c ≠ "no_offer" := by
  cases hp : portfolio with
  | nil =>
    rw [hp] at hmem
    exact absurd hmem (List.not_mem_nil _)
  | cons p0 rest =>
    subst hp
    set g := fun o : Offer => (o.id, scoreAt M X o i) with hg
    have hrl : scoreRow ((completePortfolio (p0 :: rest) true).map
        (fun o => (o.id, predict_profit_with_offer M X o))) i =
        g p0 :: (rest.map g ++ [("no_offer", scoreAt M X null_offer i)]) := by
      show (((p0 :: (rest ++ [null_offer])).map
          (fun o => (o.id, predict_profit_with_offer M X o))).map
          (fun col => (col.1, col.2.getD i 0))) =
          g p0 :: (rest.map g ++ [("no_offer", scoreAt M X null_offer i)])
      rw [List.map_map, List.map_cons, List.map_append]
      rfl
    have hgoj : g oj ∈ g p0 :: rest.map g := by
      rw [← List.map_cons]
      exact List.mem_map_of_mem g hmem
    have h3 : scoreAt M X oj i ≤ (idxmaxFold (g p0) (rest.map g)).2 :=
      idxmaxFold_le (g p0) (rest.map g) (g oj) hgoj
    have hle : scoreAt M X null_offer i ≤ (idxmaxFold (g p0) (rest.map g)).2 := by
      rw [← htie]
      exact h3
    have hfold : idxmaxFold (g p0) (rest.map g ++
        [("no_offer", scoreAt M X null_offer i)]) =
        idxmaxFold (g p0) (rest.map g) :=
      idxmaxFold_append_le (g p0) (rest.map g) hle
    have hmm : idxmaxFold (g p0) (rest.map g) ∈ (p0 :: rest).map g := by
      rw [List.map_cons]
      exact idxmaxFold_mem _ _
    obtain ⟨o, ho, heq⟩ := List.mem_map.mp hmm
    refine ⟨o.id, ?_, List.mem_map_of_mem Offer.id ho, hids o ho⟩
    simp only [choose_offer]
    rw [List.get?_map, List.get?_range hi, Option.map_some']
    congr 1
    rw [hrl]
    rw [show idxmax (g p0 :: (rest.map g ++
        [("no_offer", scoreAt M X null_offer i)])) =
        some (idxmaxFold (g p0) (rest.map g ++
          [("no_offer", scoreAt M X null_offer i)])).1 from rfl]
    rw [hfold, ← heq]

/-- Witness for the amended claim C2 at a concrete exact tie (both scores 5):
the chosen offer is the real offer. -/
theorem choose_offer_tie_first_occurrence_witness :
    exOfferA ∈ [exOfferA] ∧
    (∀ o ∈ [exOfferA], o.id ≠ "no_offer") ∧
    0 < exXempty.length ∧
    scoreAt exM exXempty exOfferA 0 = scoreAt exM exXempty null_offer 0 ∧
    (∀ o ∈ [exOfferA], scoreAt exM exXempty o 0 ≤ scoreAt exM exXempty exOfferA 0) ∧
    (∃ c, (choose_offer exM exXempty [exOfferA] true).1.get? 0 = some (some c) ∧
      c ∈ [exOfferA].map Offer.id ∧ c ≠ "no_offer") :=
  ⟨by decide, by decide, by decide, exTie_eval,
    fun o ho => by rw [List.mem_singleton.mp ho],
    choose_offer_tie_first_occurrence exM exXempty [exOfferA] exOfferA 0
      (by decide) (by decide) (by decide) exTie_eval
      (fun o ho => by rw [List.mem_singleton.mp ho])⟩

/-- Counterexample to claim C7: a feature table containing both column
blocks plus an extra column `age` yields a view-side split that still
contains `age`, which is not in the profit-block column set — so the
view-side output does not have exactly the profit-block's column set. -/
theorem split_view_profit_extra_column_counterexample :
    (∀ v ∈ VIEW_COLS, v ∈ exRowFull.map Prod.fst) ∧
    (∀ c ∈ PROFIT_COLS, c ∈ exRowFull.map Prod.fst) ∧
    "age" ∈ (((split_view_profit [exRowFull] VIEW_COLS PROFIT_COLS).1.getD 0
      []).map Prod.fst) ∧
    "age" ∉ PROFIT_COLS := by
  decide

/-- Claim C7 (amended): for a feature table whose columns all belong to the
two blocks and which contains the whole view block, the view-side output of
`split_view_profit` — profit block dropped, view columns renamed to profit
names — has exactly the profit-block's column set and no other columns. -/
theorem split_view_profit_view_side_columns (X : List Row) (i : Nat) (r : Row)
    (hr : X.get? i = some r)
    (hsub : ∀ c ∈ r.map Prod.fst, c ∈ VIEW_COLS ++ PROFIT_COLS)
    (hview : ∀ v ∈ VIEW_COLS, v ∈ r.map Prod.fst) :
    ∃ s, (split_view_profit X VIEW_COLS PROFIT_COLS).1.get? i = some s ∧
      ∀ c, c ∈ s.map Prod.fst ↔ c ∈ PROFIT_COLS := by
  refine ⟨(splitViewProfitRow r VIEW_COLS PROFIT_COLS).1, ?_, ?_⟩
  · simp only [split_view_profit]
    rw [List.get?_map, hr]
    rfl
  · intro c
    constructor
    · intro hcs
      simp only [splitViewProfitRow, renameCols] at hcs
      rw [List.map_map] at hcs
      obtain ⟨p, hpmem, hpc⟩ := List.mem_map.mp hcs
      have hpc2 : (lookupStr p.1 (VIEW_COLS.zip PROFIT_COLS)).getD p.1 = c := hpc
      have hpfil := List.mem_filter.mp hpmem
      have hnotp : p.1 ∉ PROFIT_COLS := by
        have hb := hpfil.2
        simpa using hb
      have hpin : p.1 ∈ VIEW_COLS ++ PROFIT_COLS :=
        hsub p.1 (List.mem_map_of_mem Prod.fst hpfil.1)
      have hpview : p.1 ∈ VIEW_COLS := by
        rcases List.mem_append.mp hpin with h | h
        · exact h
        · exact absurd h hnotp
      have hren : ∀ v ∈ VIEW_COLS,
          ((lookupStr v (VIEW_COLS.zip PROFIT_COLS)).getD v) ∈ PROFIT_COLS := by
        decide
      have := hren p.1 hpview
      rwa [hpc2] at this
    · intro hcp
      have hex : ∃ v, v ∈ VIEW_COLS ∧
          ((lookupStr v (VIEW_COLS.zip PROFIT_COLS)).getD v) = c := by
        rw [PROFIT_COLS_lit] at hcp
        fin_cases hcp
        · exact ⟨"difficulty_viewcol", by decide, by decide⟩
        · exact ⟨"duration_viewcol", by decide, by decide⟩
        · exact ⟨"reward_t_viewcol", by decide, by decide⟩
        · exact ⟨"channel_web_viewcol", by decide, by decide⟩
        · exact ⟨"channel_mobile_viewcol", by decide, by decide⟩
        · exact ⟨"channel_email_viewcol", by decide, by decide⟩
        · exact ⟨"channel_social_viewcol", by decide, by decide⟩
        · exact ⟨"offer_id_viewcol", by decide, by decide⟩
        · exact ⟨"offer_type_viewcol", by decide, by decide⟩
      obtain ⟨v, hvV, hvc⟩ := hex
      obtain ⟨p, hpmem, hp1⟩ := List.mem_map.mp (hview v hvV)
      have hvnotP : v ∉ PROFIT_COLS := by
        have h9 : ∀ x ∈ VIEW_COLS, x ∉ PROFIT_COLS := by decide
        exact h9 v hvV
      have hpfil : p ∈ dropCols r PROFIT_COLS :=
        List.mem_filter.mpr ⟨hpmem, by simp [hp1, hvnotP]⟩
      simp only [splitViewProfitRow, renameCols]
      rw [List.map_map]
      apply List.mem_map.mpr
      refine ⟨p, hpfil, ?_⟩
      show (lookupStr p.1 (VIEW_COLS.zip PROFIT_COLS)).getD p.1 = c
      rw [hp1]
      exact hvc

/-- Witness for the amended claim C7 at a concrete one-row table whose
columns are exactly the two blocks. -/
theorem split_view_profit_view_side_columns_witness :
    [exRowBlocks].get? 0 = some exRowBlocks ∧
    (∀ c ∈ exRowBlocks.map Prod.fst, c ∈ VIEW_COLS ++ PROFIT_COLS) ∧
    (∀ v ∈ VIEW_COLS, v ∈ exRowBlocks.map Prod.fst) ∧
    (∃ s, (split_view_profit [exRowBlocks] VIEW_COLS PROFIT_COLS).1.get? 0 =
        some s ∧ ∀ c, c ∈ s.map Prod.fst ↔ c ∈ PROFIT_COLS) :=
  ⟨by decide, by decide, by decide,
    split_view_profit_view_side_columns [exRowBlocks] 0 exRowBlocks
      (by decide) (by decide) (by decide)⟩

end Starbucks
